import Mathlib

/-!
Verification of the manifest-splitting core and the sandbox runner of the
`android_tools_treble` repository.

The manifest-splitting functions (`read_config`, `get_module_info`,
`scan_repo_projects`, `get_input_projects`, `update_manifest`,
`create_manifest_sha1_element`) live in `split/manifest_split.py`, which is
exercised by `split/manifest_split_test.py`; the module itself is not part of
the source snapshot, so those functions are modelled from the specification,
with the in-repository unit tests pinning the observable interface where they
speak (return values, error class, output shapes).  The sandbox runner
`build/sandbox/nsjail.py` is present in full and is embedded directly.
-/

namespace ManifestSplit

/-- Split a character list at every `/`, keeping empty pieces, with the
accumulator holding the current piece reversed: the recursion behind
Python's `str.split('/')`. -/
def splitSlashAux : List Char → List Char → List (List Char)
  | [], cur => [cur.reverse]
  | c :: cs, cur =>
      if c = '/' then cur.reverse :: splitSlashAux cs []
      else splitSlashAux cs (c :: cur)

/-- Split a path string into its `/`-separated segments, mirroring Python's
`path.split('/')` (empty segments are kept, the empty string yields one empty
segment). -/
def pathSegments (p : String) : List String :=
  (splitSlashAux p.data []).map String.mk

/-- Predicate `startsSegWise k p`: holds when the segment list of `k` is a prefix of the
segment list of `p`: the segment-wise prefix test of the specification
(so that `system/project1x` does not match `system/project1`). -/
def startsSegWise (k p : String) : Bool :=
  List.isPrefixOf (pathSegments k) (pathSegments p)

/-- A repo-path index: association list from repository-relative path to
canonical project name, as built by `get_repo_projects` (keys unique). -/
abbrev RepoProjects := List (String × String)

/-- Modelled from the spec: the longest-matching-prefix search of
`manifest_split.scan_repo_projects` (ProjectScanner, spec 4.4), returning the
whole matched index entry `(repo-path, project-name)`.  The specification
prescribes the matching policy: segment-wise prefix, longest match wins; the
unit test `test_scan_repo_projects` pins the public return value to the
repo-path component, recovered below by projecting with `Prod.fst`.
`scanStep` folds one index entry into the best candidate so far: a matching
entry strictly longer (in segments) than the candidate replaces it. -/
def scanStep (path : String) (best : Option (String × String)) (kv : String × String) :
    Option (String × String) :=
  if startsSegWise kv.1 path then
    match best with
    | none => some kv
    | some b =>
        if (pathSegments b.1).length < (pathSegments kv.1).length then some kv
        else some b
  else best

/-- The longest-match fold over the whole index, starting from no candidate. -/
def scanRepoEntry (repo : RepoProjects) (path : String) : Option (String × String) :=
  repo.foldl (scanStep path) none

/-- Modelled from the spec: `manifest_split.scan_repo_projects`.  Resolves a
file path to the index entry whose repo-path is the longest segment-wise
prefix of the path; per the unit test the returned value is that repo-path
itself (`none` when no entry matches). -/
def scan_repo_projects (repo : RepoProjects) (path : String) : Option String :=
  (scanRepoEntry repo path).map Prod.fst

/-- Modelled from the spec: `manifest_split.get_input_projects`
(InputProjectResolver, spec 4.5).  Resolves every input path through the
scanner, maps matched entries to their project names and collects them into a
set; paths resolving to no project are silently dropped. -/
def get_input_projects (repo : RepoProjects) (inputs : List String) : Finset String :=
  (inputs.filterMap (fun p => (scanRepoEntry repo p).map Prod.snd)).toFinset

/-- A depth-one XML element: tag plus attribute list (attribute order is the
serialization order, as in ElementTree's source-order serialization).  The
manifest and config documents of this repository are depth one: a root whose
children carry only attributes. -/
structure XmlNode where
  tag : String
  attrs : List (String × String)
deriving DecidableEq, Repr

/-- An XML document with a root element and its child elements: the shape of
the manifest and config files consumed by `manifest_split`. -/
structure XmlDoc where
  rootTag : String
  rootAttrs : List (String × String)
  children : List XmlNode
deriving DecidableEq, Repr

/-- First value of an attribute in an attribute list (attribute keys are
unique in a well-formed element, so this is the attribute lookup). -/
def attrOf (n : XmlNode) (key : String) : Option String :=
  (n.attrs.find? (fun kv => kv.1 == key)).map Prod.snd

/-- The `project` child elements of a manifest document, in document order:
`root.findall("project")`. -/
def projectsOf (m : XmlDoc) : List XmlNode :=
  m.children.filter (fun c => c.tag == "project")

/-- Whether an element carries a `name` attribute whose value lies in `s`. -/
def nameInSet (s : Finset String) (c : XmlNode) : Bool :=
  match attrOf c "name" with
  | some n => decide (n ∈ s)
  | none => false

/-- Keep predicate of the manifest filter: a child survives when it is not a
`project` element, or when it is a `project` element whose `name` attribute
lies in `input_projects \ remove_projects`. -/
def keepChild (input_projects remove_projects : Finset String) (c : XmlNode) : Bool :=
  if c.tag == "project" then nameInSet (input_projects \ remove_projects) c
  else true

/-- Modelled from the spec: `manifest_split.update_manifest` (ManifestUpdater,
spec 4.6).  Returns the document with only the project elements whose `name`
attribute lies in the resolved set minus the remove set, in original document
order; non-project children are untouched. -/
def update_manifest (m : XmlDoc) (input_projects remove_projects : Finset String) : XmlDoc :=
  { m with children := m.children.filter (keepChild input_projects remove_projects) }

/-- Modelled from the spec: `manifest_split.read_config` (ConfigLoader, spec
4.1).  The XML parse stage is represented by the `Except`-valued argument: a
malformed document is a parse error value, which the loader propagates.  From
a parsed document it collects the `name` attributes of the `remove_project`
children and of the `add_project` children into two sets. -/
def read_config (parsed : Except String XmlDoc) :
    Except String (Finset String × Finset String) :=
  match parsed with
  | Except.error e => Except.error e
  | Except.ok doc =>
      Except.ok
        (((doc.children.filter (fun c => c.tag == "remove_project")).filterMap
            (fun c => attrOf c "name")).toFinset,
         ((doc.children.filter (fun c => c.tag == "add_project")).filterMap
            (fun c => attrOf c "name")).toFinset)

/-- A module-info table: association list from target name to the list of
repository-relative paths of its sources, the parsed form of the JSON object
`{ "<target>": { "path": [...] } }`. -/
abbrev ModuleInfo := List (String × List String)

/-- Ordered-dictionary insertion of a target into a project's target set:
a new project key is appended at the end, an existing key keeps its position
and its target list gains the target only when absent (set deduplication). -/
def insertTarget (acc : List (String × List String)) (proj target : String) :
    List (String × List String) :=
  match acc with
  | [] => [(proj, [target])]
  | (p, ts) :: rest =>
      if p == proj then (p, if target ∈ ts then ts else ts ++ [target]) :: rest
      else (p, ts) :: insertTarget rest proj target

/-- The configuration-error message for a module-info path that resolves to no
repo project, identifying the offending target and path. -/
def unknownPathMsg (target path : String) : String :=
  "Unknown module path for module " ++ target ++ ": " ++ path

/-- Whether a path lies under the generated-output directory: its first
segment is `out` and a separator follows (Python `path.startswith("out/")`). -/
def isOutPath (p : String) : Bool :=
  match pathSegments p with
  | s :: _ :: _ => s == "out"
  | _ => false

/-- Modelled from the spec: the per-target loop of
`manifest_split.get_module_info`: resolve each path of `target` through the
scanner; a resolved path adds the target to the owning project's set.  An
unresolved path under the build-output directory `out/` is skipped silently
— the open question of the spec's design notes, settled by the unit test
`test_get_module_info`,
where target2's sole path `out/project2` resolves to nothing yet the call
succeeds with target2 absent — while any other unresolved path is a fatal
configuration error naming the target and the path
(`test_get_module_info_raises_on_unknown_module_path`). -/
def addTargetPaths (repo : RepoProjects) (target : String) :
    List String → List (String × List String) →
    Except String (List (String × List String))
  | [], acc => Except.ok acc
  | p :: ps, acc =>
      match scanRepoEntry repo p with
      | none =>
          if isOutPath p then addTargetPaths repo target ps acc
          else Except.error (unknownPathMsg target p)
      | some kv => addTargetPaths repo target ps (insertTarget acc kv.2 target)

/-- Modelled from the spec: the full fold of `manifest_split.get_module_info`
over the module-info table, threading the project-to-targets accumulator. -/
def getModuleInfoAux (repo : RepoProjects) :
    ModuleInfo → List (String × List String) →
    Except String (List (String × List String))
  | [], acc => Except.ok acc
  | (t, ps) :: rest, acc =>
      match addTargetPaths repo t ps acc with
      | Except.error e => Except.error e
      | Except.ok acc2 => getModuleInfoAux repo rest acc2

/-- Modelled from the spec: `manifest_split.get_module_info` (ModuleInfoIndex,
spec 4.3).  Builds the mapping project-identifier to target set (an ordered
dictionary of deduplicated target lists); fails with a configuration error on
the first module-info path that resolves to no repo project and does not lie
under `out/`. -/
def get_module_info (moduleInfo : ModuleInfo) (repo : RepoProjects) :
    Except String (List (String × List String)) :=
  getModuleInfoAux repo moduleInfo []

/-- Targets recorded for a project in the result mapping (empty when the
project is absent). -/
def targetsOf (m : List (String × List String)) (proj : String) : List String :=
  ((m.find? (fun kv => kv.1 == proj)).map Prod.snd).getD []

/-- Serialization of an attribute list: ` key="value"` pairs in list order
(stable attribute order, as the spec requires for hash reproducibility). -/
def serializeAttrs : List (String × String) → String
  | [] => ""
  | (k, v) :: rest => " " ++ k ++ "=\x22" ++ v ++ "\x22" ++ serializeAttrs rest

/-- Serialization of a childless element, `ElementTree`-style:
`<tag attrs />`. -/
def serializeNode (n : XmlNode) : String :=
  "<" ++ n.tag ++ serializeAttrs n.attrs ++ " />"

/-- Deterministic serialization of a document (the `ET.tostring` of its root):
a self-closed root when childless, otherwise the root tag wrapping the
serialized children in document order. -/
def serializeDoc (m : XmlDoc) : String :=
  if m.children.isEmpty then
    "<" ++ m.rootTag ++ serializeAttrs m.rootAttrs ++ " />"
  else
    "<" ++ m.rootTag ++ serializeAttrs m.rootAttrs ++ ">"
      ++ String.join (m.children.map serializeNode)
      ++ "</" ++ m.rootTag ++ ">"

/-- UTF-8 encoding of a single code point, as natural numbers below 256. -/
def utf8Bytes (c : Nat) : List Nat :=
  if c < 128 then [c]
  else if c < 2048 then [192 + c / 64, 128 + c % 64]
  else if c < 65536 then [224 + c / 4096, 128 + (c / 64) % 64, 128 + c % 64]
  else [240 + c / 262144, 128 + (c / 4096) % 64, 128 + (c / 64) % 64, 128 + c % 64]

/-- The UTF-8 bytes of a string, as natural numbers below 256. -/
def strBytes (s : String) : List Nat :=
  s.data.flatMap (fun c => utf8Bytes c.toNat)

namespace Sha1

/-- Truncation to a 32-bit word. -/
def w32 (n : Nat) : Nat := n % 4294967296

/-- Left rotation (32-bit) by `k` of a word `n < 2^32`. -/
def rotl (k n : Nat) : Nat := w32 ((n <<< k) ||| (n >>> (32 - k)))

/-- Big-endian byte decomposition of `n` into `width` bytes. -/
def bytesBE (width n : Nat) : List Nat :=
  (List.range width).map (fun i => (n >>> (8 * (width - 1 - i))) % 256)

/-- SHA-1 message padding: append `0x80`, zero bytes up to 56 mod 64, then the
original bit length as eight big-endian bytes. -/
def pad (msg : List Nat) : List Nat :=
  let padZeros := (119 - msg.length % 64) % 64
  msg ++ [128] ++ List.replicate padZeros 0 ++ bytesBE 8 (msg.length * 8)

/-- The sixteen big-endian 32-bit words of one 64-byte chunk. -/
def chunkWords (chunk : List Nat) : List Nat :=
  (List.range 16).map (fun i =>
    (chunk.getD (4 * i) 0) <<< 24 ||| (chunk.getD (4 * i + 1) 0) <<< 16 |||
    (chunk.getD (4 * i + 2) 0) <<< 8 ||| chunk.getD (4 * i + 3) 0)

/-- Extension of the sixteen chunk words to the eighty schedule words. -/
def extendWords (ws : List Nat) : List Nat :=
  (List.range 64).foldl
    (fun w _ =>
      let j := w.length
      w ++ [rotl 1 ((w.getD (j - 3) 0) ^^^ (w.getD (j - 8) 0) ^^^
                    (w.getD (j - 14) 0) ^^^ (w.getD (j - 16) 0))])
    ws

/-- One SHA-1 round: round index `i`, state `(a, b, c, d, e)`, schedule word
`wi`. -/
def round (i : Nat) (st : Nat × Nat × Nat × Nat × Nat) (wi : Nat) :
    Nat × Nat × Nat × Nat × Nat :=
  let (a, b, c, d, e) := st
  let fk : Nat × Nat :=
    if i < 20 then ((b &&& c) ||| ((4294967295 ^^^ b) &&& d), 1518500249)
    else if i < 40 then (b ^^^ c ^^^ d, 1859775393)
    else if i < 60 then ((b &&& c) ||| (b &&& d) ||| (c &&& d), 2400959708)
    else (b ^^^ c ^^^ d, 3395469782)
  let temp := w32 (rotl 5 a + fk.1 + e + fk.2 + wi)
  (temp, a, rotl 30 b, c, d)

/-- Compression of one 64-byte chunk into the running hash state. -/
def compress (h : Nat × Nat × Nat × Nat × Nat) (chunk : List Nat) :
    Nat × Nat × Nat × Nat × Nat :=
  let ws := extendWords (chunkWords chunk)
  let (a, b, c, d, e) :=
    ((List.range 80).zip ws).foldl (fun st iw => round iw.1 st iw.2) h
  (w32 (h.1 + a), w32 (h.2.1 + b), w32 (h.2.2.1 + c), w32 (h.2.2.2.1 + d),
   w32 (h.2.2.2.2 + e))

/-- Fold the compression over `n` successive 64-byte chunks of `msg`. -/
def compressChunks : Nat → (Nat × Nat × Nat × Nat × Nat) → List Nat →
    Nat × Nat × Nat × Nat × Nat
  | 0, h, _ => h
  | n + 1, h, msg => compressChunks n (compress h (msg.take 64)) (msg.drop 64)

/-- The five 32-bit words of the SHA-1 digest of a byte list. -/
def digestWords (msg : List Nat) : Nat × Nat × Nat × Nat × Nat :=
  let padded := pad msg
  compressChunks (padded.length / 64)
    (1732584193, 4023233417, 2562383102, 271733878, 3285377520) padded

/-- Lower-case hexadecimal digit for `n < 16`. -/
def hexDigit (n : Nat) : Char :=
  if n < 10 then Char.ofNat (48 + n) else Char.ofNat (87 + n)

/-- Fixed-width lower-case hexadecimal rendering of `n`. -/
def toHex (width n : Nat) : String :=
  String.mk ((List.range width).map (fun i => hexDigit ((n >>> (4 * (width - 1 - i))) % 16)))

/-- The lower-case 40-character hexadecimal SHA-1 digest of a byte list:
`hashlib.sha1(bytes).hexdigest()`. -/
def hexdigest (msg : List Nat) : String :=
  let h := digestWords msg
  toHex 8 h.1 ++ toHex 8 h.2.1 ++ toHex 8 h.2.2.1 ++ toHex 8 h.2.2.2.1
    ++ toHex 8 h.2.2.2.2

end Sha1

/-- Modelled from the spec: `manifest_split.create_manifest_sha1_element`
(ManifestHasher, spec 4.7).  Builds the hash element for a manifest document:
`name` is the caller-supplied identifier, `type` is the fixed string `sha1`,
`value` is the hex SHA-1 digest of the serialized bytes of the root element as
it stands before the hash element is inserted (the function only reads the
document, so the digest never covers the hash element itself). -/
def create_manifest_sha1_element (manifest : XmlDoc) (name : String) : XmlNode :=
  { tag := "hash",
    attrs := [("name", name), ("type", "sha1"),
              ("value", Sha1.hexdigest (strBytes (serializeDoc manifest)))] }

end ManifestSplit

namespace Nsjail

/-- POSIX `os.path.isabs`: a path is absolute when it starts with a slash. -/
def os_path_isabs (p : String) : Bool :=
  p.startsWith "/"

/-- POSIX two-argument `os.path.join`: an absolute second component replaces
the first; otherwise the components are joined with a single separator (an
empty first component yields the second unchanged). -/
def os_path_join2 (a b : String) : String :=
  if os_path_isabs b then b
  else if a == "" || a.endsWith "/" then a ++ b
  else a ++ "/" ++ b

/-- POSIX `os.path.basename`: the part after the last slash. -/
def os_path_basename (p : String) : String :=
  (p.splitOn "/").getLastD ""

/-- POSIX `os.path.dirname`: the part up to the last slash, with trailing
slashes stripped unless the result is all slashes. -/
def os_path_dirname (p : String) : String :=
  let segs := p.splitOn "/"
  if segs.length == 1 then ""
  else
    let head := String.intercalate "/" segs.dropLast ++ "/"
    if head.all (fun c => c == '/') then head
    else head.dropRightWhile (fun c => c == '/')

/-- Insert-or-update on an ordered dictionary held as an association list:
an existing key keeps its position, a new key is appended. -/
def odInsert (m : List (String × String)) (k v : String) : List (String × String) :=
  if m.any (fun kv => kv.1 == k) then
    m.map (fun kv => if kv.1 == k then (k, v) else kv)
  else m ++ [(k, v)]

/-- The list `_CHROOT_MOUNT_POINTS` of `nsjail.py`, including the entry
`etc/defaultetc/perl` produced by the adjacent string literals
`'etc/default' 'etc/perl'` in the Python source. -/
def chrootMountPoints : List String :=
  ["bin", "sbin", "etc/alternatives", "etc/defaultetc/perl", "etc/ssl",
   "etc/xml", "lib", "lib32", "lib64", "libx32", "usr"]

/-- Host environment of a `run` invocation: the directory of the script, the
`os.path.abspath` resolver, the filesystem-existence oracle, the bind-mount
table produced by the external `BindOverlay` collaborator, and the state of
the interactive adb-server check (whether a host adb fork-server is running
and whether the operator consents to killing it). -/
structure SysEnv where
  scriptDir : String
  abspath : String → String
  pathExists : String → Bool
  overlayBindMounts : List (String × String)
  adbServerRunning : Bool
  userAgreesAdbKill : Bool

/-- Arguments of `nsjail.run`.  String-typed optional arguments use the empty
string for Python falsiness (both `None` and `''`); `max_cpus` is `None` or an
integer, `0` being falsy as in Python. -/
structure RunArgs where
  command : List String
  android_target : String
  nsjail_bin : String
  chroot : String
  overlay_config : String
  source_dir : String
  out_dirname_for_whiteout : String
  dist_dir : String
  build_id : String
  out_dir : String
  meta_root_dir : String
  meta_android_dir : String
  mount_local_device : Bool
  max_cpus : Option Nat
  extra_bind_mounts : List String
  readonly_bind_mounts : List String
  extra_nsjail_args : List String
  dry_run : Bool
  quiet : Bool
  env : List String

/-- Abnormal terminations of `run`: the `ValueError` raised for a bad
`meta_android_dir`, and the `exit()` taken when the operator declines to kill
a running host adb server during the `mount_local_device` check. -/
inductive RunError where
  | valueError (msg : String)
  | systemExit
deriving DecidableEq, Repr

/-- Embedding of `nsjail.run` (build/sandbox/nsjail.py): the construction of
the `nsjail_command` list, from the `mount_local_device` adb check through the
final `-- command` suffix.  Printing and `subprocess.check_call` are I/O and
out of scope; the returned list is the function's return value.  The whiteout
set and the overlay configuration feed the external `BindOverlay`
collaborator, whose `GetBindMounts` result is the `overlayBindMounts` oracle
of the environment. -/
def run (sys : SysEnv) (a : RunArgs) : Except RunError (List String) :=
  if a.mount_local_device && sys.adbServerRunning && !sys.userAgreesAdbKill then
    Except.error RunError.systemExit
  else
    let config_file := os_path_join2 sys.scriptDir "nsjail.cfg"
    let out_dir := if a.out_dir == "" then a.out_dir else sys.abspath a.out_dir
    let dist_dir := if a.dist_dir == "" then a.dist_dir else sys.abspath a.dist_dir
    let meta_root_dir :=
      if a.meta_root_dir == "" then a.meta_root_dir else sys.abspath a.meta_root_dir
    let source_dir :=
      if a.source_dir == "" then a.source_dir else sys.abspath a.source_dir
    let nsjail_bin :=
      if a.nsjail_bin == "" then a.nsjail_bin else os_path_join2 source_dir a.nsjail_bin
    let chroot :=
      if a.chroot == "" then a.chroot else os_path_join2 source_dir a.chroot
    if meta_root_dir != "" && (a.meta_android_dir == "" || os_path_isabs a.meta_android_dir) then
      Except.error (RunError.valueError
        ("error: the provided meta_android_dir is not a path"
          ++ "relative to meta_root_dir."))
    else
      let cmd := [nsjail_bin, "--env", "USER=android-build", "--config", config_file]
      let cmd :=
        if chroot != "" then
          chrootMountPoints.foldl
            (fun acc mp =>
              let source := os_path_join2 chroot mp
              let dest := os_path_join2 "/" mp
              if sys.pathExists source then acc ++ ["--bindmount_ro", source ++ ":" ++ dest]
              else acc)
            cmd
        else cmd
      let cmd :=
        if a.build_id != "" then cmd ++ ["--env", "BUILD_NUMBER=" ++ a.build_id] else cmd
      let cmd :=
        match a.max_cpus with
        | some n => if n != 0 then cmd ++ ["--max_cpus=" ++ toString n] else cmd
        | none => cmd
      let cmd := if a.quiet then cmd ++ ["--quiet"] else cmd
      let bind_mounts :=
        if a.overlay_config != "" && sys.pathExists a.overlay_config then
          sys.overlayBindMounts
        else [("/src", source_dir)]
      let bind_mounts :=
        if out_dir != "" then odInsert bind_mounts "/src/out" out_dir else bind_mounts
      let bind_mounts :=
        if dist_dir != "" then odInsert bind_mounts "/dist" dist_dir else bind_mounts
      let cmd := if dist_dir != "" then cmd ++ ["--env", "DIST_DIR=/dist"] else cmd
      let bind_mounts :=
        if meta_root_dir != "" then
          let bm := odInsert bind_mounts "/meta" meta_root_dir
          let bm := odInsert bm (os_path_join2 "/meta" a.meta_android_dir) source_dir
          if out_dir != "" then
            odInsert bm (os_path_join2 (os_path_join2 "/meta" a.meta_android_dir) "out")
              out_dir
          else bm
        else bind_mounts
      let cmd :=
        bind_mounts.foldl
          (fun acc kv => acc ++ ["--bindmount", kv.2 ++ ":" ++ kv.1]) cmd
      let cmd :=
        if a.mount_local_device then
          cmd ++ ["--bindmount", "/dev/bus/usb", "--bindmount", "/sys/bus/usb/devices",
                  "--bindmount", "/sys/dev", "--bindmount", "/sys/devices"]
        else cmd
      let cmd := a.extra_bind_mounts.foldl (fun acc m => acc ++ ["--bindmount", m]) cmd
      let cmd :=
        a.readonly_bind_mounts.foldl (fun acc m => acc ++ ["--bindmount_ro", m]) cmd
      let cmd := a.env.foldl (fun acc v => acc ++ ["--env", v]) cmd
      let cmd := cmd ++ a.extra_nsjail_args
      Except.ok (cmd ++ ["--"] ++ a.command)

end Nsjail

namespace ManifestSplit

/-! ### Supporting lemmas -/

theorem filter_idem_list {α : Type} (f : α → Bool) (l : List α) :
    (l.filter f).filter f = l.filter f := by
  rw [List.filter_filter]
  exact List.filter_congr (fun x _ => Bool.and_self (f x))

theorem scanStep_cases (p : String) (best : Option (String × String))
    (kv : String × String) :
    scanStep p best kv = best ∨
      (scanStep p best kv = some kv ∧ startsSegWise kv.1 p = true) := by
  cases best with
  | none =>
    unfold scanStep
    cases h : startsSegWise kv.1 p
    · simp
    · exact Or.inr ⟨by simp, rfl⟩
  | some b =>
    unfold scanStep
    cases h : startsSegWise kv.1 p
    · simp
    · by_cases hl : (pathSegments b.1).length < (pathSegments kv.1).length
      · exact Or.inr ⟨by simp [hl], rfl⟩
      · exact Or.inl (by simp [hl])

theorem scanStep_ge_best (p : String) (b : String × String) (kv : String × String) :
    ∃ r, scanStep p (some b) kv = some r ∧
      (pathSegments b.1).length ≤ (pathSegments r.1).length := by
  unfold scanStep
  cases h : startsSegWise kv.1 p
  · exact ⟨b, by simp, le_refl _⟩
  · by_cases hl : (pathSegments b.1).length < (pathSegments kv.1).length
    · exact ⟨kv, by simp [hl], le_of_lt hl⟩
    · exact ⟨b, by simp [hl], le_refl _⟩

theorem scanStep_ge_match (p : String) (best : Option (String × String))
    (kv : String × String) (h : startsSegWise kv.1 p = true) :
    ∃ r, scanStep p best kv = some r ∧
      (pathSegments kv.1).length ≤ (pathSegments r.1).length := by
  cases best with
  | none => exact ⟨kv, by simp [scanStep, h], le_refl _⟩
  | some b =>
    unfold scanStep
    by_cases hl : (pathSegments b.1).length < (pathSegments kv.1).length
    · exact ⟨kv, by simp [h, hl], le_refl _⟩
    · exact ⟨b, by simp [h, hl], le_of_not_lt hl⟩

theorem scanStep_nomatch (p : String) (best : Option (String × String))
    (kv : String × String) (h : startsSegWise kv.1 p = false) :
    scanStep p best kv = best := by
  simp [scanStep, h]

theorem scanFold_spec (p : String) (repo : RepoProjects) :
    ∀ best : Option (String × String),
    (List.foldl (scanStep p) best repo = best ∨
      ∃ kv, kv ∈ repo ∧ List.foldl (scanStep p) best repo = some kv ∧
        startsSegWise kv.1 p = true) ∧
    (∀ kv, kv ∈ repo → startsSegWise kv.1 p = true →
      ∃ r, List.foldl (scanStep p) best repo = some r ∧
        (pathSegments kv.1).length ≤ (pathSegments r.1).length) ∧
    ((∀ kv, kv ∈ repo → startsSegWise kv.1 p = false) →
      List.foldl (scanStep p) best repo = best) ∧
    (∀ b, best = some b →
      ∃ r, List.foldl (scanStep p) best repo = some r ∧
        (pathSegments b.1).length ≤ (pathSegments r.1).length) := by
  induction repo with
  | nil =>
    intro best
    refine ⟨Or.inl rfl, ?_, fun _ => rfl, ?_⟩
    · intro kv hkv; cases hkv
    · intro b hb; exact ⟨b, by subst hb; rfl, le_refl _⟩
  | cons kv0 rest ih =>
    intro best
    refine ⟨?_, ?_, ?_, ?_⟩
    · rcases scanStep_cases p best kv0 with h | ⟨h, hm⟩
      · rcases (ih (scanStep p best kv0)).1 with h2 | ⟨kv, hkv, h2, hm2⟩
        · left; rw [List.foldl_cons, h2, h]
        · right
          exact ⟨kv, List.mem_cons_of_mem _ hkv,
            by rw [List.foldl_cons]; exact h2, hm2⟩
      · rcases (ih (scanStep p best kv0)).1 with h2 | ⟨kv, hkv, h2, hm2⟩
        · right
          refine ⟨kv0, List.mem_cons_self _ _, ?_, hm⟩
          rw [List.foldl_cons, h2, h]
        · right
          exact ⟨kv, List.mem_cons_of_mem _ hkv,
            by rw [List.foldl_cons]; exact h2, hm2⟩
    · intro kv hkv hm
      rcases List.mem_cons.mp hkv with rfl | hkv2
      · rcases scanStep_ge_match p best kv hm with ⟨r0, hr0, hle0⟩
        rcases (ih (scanStep p best kv)).2.2.2 r0 hr0 with ⟨r, hr, hle⟩
        exact ⟨r, by rw [List.foldl_cons]; exact hr, le_trans hle0 hle⟩
      · rcases (ih (scanStep p best kv0)).2.1 kv hkv2 hm with ⟨r, hr, hle⟩
        exact ⟨r, by rw [List.foldl_cons]; exact hr, hle⟩
    · intro hall
      rw [List.foldl_cons,
        scanStep_nomatch p best kv0 (hall kv0 (List.mem_cons_self _ _))]
      exact (ih best).2.2.1 (fun kv hkv => hall kv (List.mem_cons_of_mem _ hkv))
    · intro b hb
      subst hb
      rcases scanStep_ge_best p b kv0 with ⟨r0, hr0, hle0⟩
      rcases (ih (scanStep p (some b) kv0)).2.2.2 r0 hr0 with ⟨r, hr, hle⟩
      exact ⟨r, by rw [List.foldl_cons]; exact hr, le_trans hle0 hle⟩

theorem mem_get_input_projects (repo : RepoProjects) (inputs : List String)
    (proj : String) :
    proj ∈ get_input_projects repo inputs ↔
      ∃ p ∈ inputs, ∃ k, scanRepoEntry repo p = some (k, proj) := by
  unfold get_input_projects
  rw [List.mem_toFinset, List.mem_filterMap]
  constructor
  · rintro ⟨p, hp, hmap⟩
    rcases Option.map_eq_some'.mp hmap with ⟨kv, hkv, hsnd⟩
    exact ⟨p, hp, kv.1, by rwa [← hsnd, Prod.mk.eta]⟩
  · rintro ⟨p, hp, k, hk⟩
    exact ⟨p, hp, by rw [hk]; rfl⟩

theorem targetsOf_nil (q : String) : targetsOf [] q = [] := rfl

theorem targetsOf_cons (p : String) (ts : List String)
    (rest : List (String × List String)) (q : String) :
    targetsOf ((p, ts) :: rest) q = if p == q then ts else targetsOf rest q := by
  unfold targetsOf
  rw [List.find?_cons]
  cases h : (p == q) <;> simp [h]

theorem mem_targetsOf_insertTarget (acc : List (String × List String))
    (proj target q tg : String) :
    tg ∈ targetsOf (insertTarget acc proj target) q ↔
      tg ∈ targetsOf acc q ∨ (q = proj ∧ tg = target) := by
  induction acc with
  | nil =>
    unfold insertTarget
    rw [targetsOf_cons, targetsOf_nil]
    by_cases h : proj = q
    · subst h
      simp
    · have hb : (proj == q) = false := by simpa using h
      simp only [hb, Bool.false_eq_true, if_false, List.not_mem_nil, false_iff,
        false_or, not_and]
      exact fun hq => absurd hq.symm h
  | cons pr0 rest ih =>
    obtain ⟨p, ts⟩ := pr0
    unfold insertTarget
    by_cases hpp : p = proj
    · subst hpp
      simp only [beq_self_eq_true, if_true]
      rw [targetsOf_cons, targetsOf_cons]
      by_cases hq : p = q
      · have hb : (p == q) = true := by simpa using hq
        simp only [hb, if_true]
        by_cases hmem : target ∈ ts
        · simp only [if_pos hmem]
          constructor
          · exact fun ht => Or.inl ht
          · rintro (ht | ⟨_, ht⟩)
            · exact ht
            · rw [ht]; exact hmem
        · simp only [if_neg hmem, List.mem_append, List.mem_singleton]
          constructor
          · rintro (ht | ht)
            · exact Or.inl ht
            · exact Or.inr ⟨hq.symm, ht⟩
          · rintro (ht | ⟨_, ht⟩)
            · exact Or.inl ht
            · exact Or.inr ht
      · have hb : (p == q) = false := by simpa using hq
        simp only [hb, Bool.false_eq_true, if_false]
        constructor
        · exact fun ht => Or.inl ht
        · rintro (ht | ⟨hqp, _⟩)
          · exact ht
          · exact absurd hqp.symm hq
    · have hb : (p == proj) = false := by simpa using hpp
      simp only [hb, Bool.false_eq_true, if_false]
      rw [targetsOf_cons, targetsOf_cons]
      by_cases hq : p = q
      · have hbq : (p == q) = true := by simpa using hq
        simp only [hbq, if_true]
        constructor
        · exact fun ht => Or.inl ht
        · rintro (ht | ⟨hqp, _⟩)
          · exact ht
          · rw [← hq] at hqp; exact absurd hqp hpp
      · have hbq : (p == q) = false := by simpa using hq
        simp only [hbq, Bool.false_eq_true, if_false]
        exact ih

theorem insertTarget_nodup (acc : List (String × List String))
    (proj target : String) (h : ∀ pr ∈ acc, pr.2.Nodup) :
    ∀ pr ∈ insertTarget acc proj target, pr.2.Nodup := by
  induction acc with
  | nil =>
    unfold insertTarget
    intro pr hpr
    rcases List.mem_singleton.mp hpr with rfl
    exact List.nodup_singleton _
  | cons pr0 rest ih =>
    obtain ⟨p, ts⟩ := pr0
    unfold insertTarget
    by_cases hpp : (p == proj) = true
    · simp only [hpp, if_true]
      intro pr hpr
      rcases List.mem_cons.mp hpr with rfl | hpr2
      · by_cases hmem : target ∈ ts
        · simpa [hmem] using h (p, ts) (List.mem_cons_self _ _)
        · simp only [if_neg hmem]
          have hts : ts.Nodup := h (p, ts) (List.mem_cons_self _ _)
          have hcons : (target :: ts).Nodup := List.nodup_cons.mpr ⟨hmem, hts⟩
          exact (List.perm_append_singleton _ _).symm.nodup hcons
      · exact h pr (List.mem_cons_of_mem _ hpr2)
    · have hb : (p == proj) = false := by simpa using hpp
      simp only [hb, Bool.false_eq_true, if_false]
      intro pr hpr
      rcases List.mem_cons.mp hpr with rfl | hpr2
      · exact h (p, ts) (List.mem_cons_self _ _)
      · exact ih (fun x hx => h x (List.mem_cons_of_mem _ hx)) pr hpr2

theorem addTargetPaths_ok (repo : RepoProjects) (t : String) :
    ∀ ps : List String,
      (∀ p ∈ ps, scanRepoEntry repo p = none → isOutPath p = true) →
    ∀ acc, ∃ acc2, addTargetPaths repo t ps acc = Except.ok acc2 ∧
      (∀ q tg, tg ∈ targetsOf acc2 q ↔ tg ∈ targetsOf acc q ∨
        (tg = t ∧ ∃ p ∈ ps, ∃ k, scanRepoEntry repo p = some (k, q))) ∧
      ((∀ pr ∈ acc, pr.2.Nodup) → ∀ pr ∈ acc2, pr.2.Nodup) := by
  intro ps
  induction ps with
  | nil =>
    intro _ acc
    exact ⟨acc, rfl, fun q tg => by simp, fun h => h⟩
  | cons p0 ps ih =>
    intro hres acc
    cases hkv : scanRepoEntry repo p0 with
    | some kv =>
      rcases ih (fun p hp => hres p (List.mem_cons_of_mem _ hp))
        (insertTarget acc kv.2 t) with ⟨acc2, heq, hmem, hnd⟩
      refine ⟨acc2, ?_, ?_, ?_⟩
      · simp only [addTargetPaths, hkv]
        exact heq
      · intro q tg
        rw [hmem q tg, mem_targetsOf_insertTarget]
        constructor
        · rintro ((h | ⟨hq, ht⟩) | ⟨ht, p, hp, k, hk⟩)
          · exact Or.inl h
          · refine Or.inr ⟨ht, p0, List.mem_cons_self _ _, kv.1, ?_⟩
            rw [hkv, hq, Prod.mk.eta]
          · exact Or.inr ⟨ht, p, List.mem_cons_of_mem _ hp, k, hk⟩
        · rintro (h | ⟨ht, p, hp, k, hk⟩)
          · exact Or.inl (Or.inl h)
          · rcases List.mem_cons.mp hp with rfl | hp2
            · rw [hkv] at hk
              have hq : kv.2 = q := congrArg Prod.snd (Option.some.inj hk)
              exact Or.inl (Or.inr ⟨hq.symm, ht⟩)
            · exact Or.inr ⟨ht, p, hp2, k, hk⟩
      · intro h
        exact hnd (insertTarget_nodup acc kv.2 t h)
    | none =>
      have hout : isOutPath p0 = true := hres p0 (List.mem_cons_self _ _) hkv
      rcases ih (fun p hp => hres p (List.mem_cons_of_mem _ hp)) acc with
        ⟨acc2, heq, hmem, hnd⟩
      refine ⟨acc2, ?_, ?_, hnd⟩
      · simp only [addTargetPaths, hkv, hout, if_true]
        exact heq
      · intro q tg
        rw [hmem q tg]
        constructor
        · rintro (h | ⟨ht, p, hp, k, hk⟩)
          · exact Or.inl h
          · exact Or.inr ⟨ht, p, List.mem_cons_of_mem _ hp, k, hk⟩
        · rintro (h | ⟨ht, p, hp, k, hk⟩)
          · exact Or.inl h
          · rcases List.mem_cons.mp hp with rfl | hp2
            · rw [hkv] at hk; cases hk
            · exact Or.inr ⟨ht, p, hp2, k, hk⟩

theorem getModuleInfoAux_ok (repo : RepoProjects) :
    ∀ mi : ModuleInfo,
      (∀ tp ∈ mi, ∀ p ∈ tp.2, scanRepoEntry repo p = none → isOutPath p = true) →
      ∀ acc, ∃ m, getModuleInfoAux repo mi acc = Except.ok m ∧
        (∀ q tg, tg ∈ targetsOf m q ↔ tg ∈ targetsOf acc q ∨
          ∃ ps, (tg, ps) ∈ mi ∧ ∃ p ∈ ps, ∃ k, scanRepoEntry repo p = some (k, q)) ∧
        ((∀ pr ∈ acc, pr.2.Nodup) → ∀ pr ∈ m, pr.2.Nodup) := by
  intro mi
  induction mi with
  | nil =>
    intro _ acc
    exact ⟨acc, rfl, fun q tg => by simp, fun h => h⟩
  | cons tp0 rest ih =>
    intro hres acc
    obtain ⟨t0, ps0⟩ := tp0
    have h0 : ∀ p ∈ ps0, scanRepoEntry repo p = none → isOutPath p = true :=
      hres (t0, ps0) (List.mem_cons_self _ _)
    rcases addTargetPaths_ok repo t0 ps0 h0 acc with ⟨acc1, heq1, hmem1, hnd1⟩
    rcases ih (fun tp htp => hres tp (List.mem_cons_of_mem _ htp)) acc1 with
      ⟨m, heq2, hmem2, hnd2⟩
    refine ⟨m, ?_, ?_, fun h => hnd2 (hnd1 h)⟩
    · simp only [getModuleInfoAux, heq1]
      exact heq2
    · intro q tg
      rw [hmem2 q tg, hmem1 q tg]
      constructor
      · rintro ((h | ⟨ht, p, hp, k, hk⟩) | ⟨ps, hps, p, hp, k, hk⟩)
        · exact Or.inl h
        · refine Or.inr ⟨ps0, ?_, p, hp, k, hk⟩
          rw [ht]; exact List.mem_cons_self _ _
        · exact Or.inr ⟨ps, List.mem_cons_of_mem _ hps, p, hp, k, hk⟩
      · rintro (h | ⟨ps, hps, p, hp, k, hk⟩)
        · exact Or.inl (Or.inl h)
        · rcases List.mem_cons.mp hps with heq | hps2
          · have ht : tg = t0 := congrArg Prod.fst heq
            have hps' : ps = ps0 := congrArg Prod.snd heq
            refine Or.inl (Or.inr ⟨ht, p, ?_, k, hk⟩)
            rw [← hps']; exact hp
          · exact Or.inr ⟨ps, hps2, p, hp, k, hk⟩

theorem addTargetPaths_err (repo : RepoProjects) (t : String) :
    ∀ ps : List String,
      (∃ p ∈ ps, scanRepoEntry repo p = none ∧ isOutPath p = false) →
      ∃ p, p ∈ ps ∧ scanRepoEntry repo p = none ∧ isOutPath p = false ∧
        ∀ acc, addTargetPaths repo t ps acc = Except.error (unknownPathMsg t p) := by
  intro ps
  induction ps with
  | nil => rintro ⟨p, hp, _⟩; cases hp
  | cons p0 ps ih =>
    rintro ⟨p, hp, hnone, hnout⟩
    cases hkv : scanRepoEntry repo p0 with
    | none =>
      by_cases hout : isOutPath p0 = true
      · have hp2 : p ∈ ps := by
          rcases List.mem_cons.mp hp with rfl | h
          · rw [hout] at hnout; cases hnout
          · exact h
        rcases ih ⟨p, hp2, hnone, hnout⟩ with ⟨p1, hp1, hn1, hno1, hall⟩
        refine ⟨p1, List.mem_cons_of_mem _ hp1, hn1, hno1, fun acc => ?_⟩
        simp only [addTargetPaths, hkv, hout, if_true]
        exact hall _
      · have hout2 : isOutPath p0 = false := Bool.not_eq_true _ ▸ Bool.eq_false_iff.mpr hout
        refine ⟨p0, List.mem_cons_self _ _, hkv, hout2, fun acc => ?_⟩
        simp only [addTargetPaths, hkv, hout2, Bool.false_eq_true, if_false]
    | some kv =>
      have hp2 : p ∈ ps := by
        rcases List.mem_cons.mp hp with rfl | h
        · rw [hkv] at hnone; cases hnone
        · exact h
      rcases ih ⟨p, hp2, hnone, hnout⟩ with ⟨p1, hp1, hn1, hno1, hall⟩
      refine ⟨p1, List.mem_cons_of_mem _ hp1, hn1, hno1, fun acc => ?_⟩
      simp only [addTargetPaths, hkv]
      exact hall _

theorem getModuleInfoAux_err (repo : RepoProjects) :
    ∀ mi : ModuleInfo,
      (∃ tp ∈ mi, ∃ p ∈ tp.2, scanRepoEntry repo p = none ∧ isOutPath p = false) →
      ∃ t p, (∃ ps, (t, ps) ∈ mi ∧ p ∈ ps ∧ scanRepoEntry repo p = none ∧
          isOutPath p = false) ∧
        ∀ acc, getModuleInfoAux repo mi acc = Except.error (unknownPathMsg t p) := by
  intro mi
  induction mi with
  | nil => rintro ⟨tp, htp, _⟩; cases htp
  | cons tp0 rest ih =>
    rintro ⟨tp1, htp1, p1, hp1, hn1, hno1⟩
    obtain ⟨t0, ps0⟩ := tp0
    by_cases h0 : ∃ p ∈ ps0, scanRepoEntry repo p = none ∧ isOutPath p = false
    · rcases addTargetPaths_err repo t0 ps0 h0 with ⟨p, hp, hn, hno, hall⟩
      refine ⟨t0, p, ⟨ps0, List.mem_cons_self _ _, hp, hn, hno⟩, fun acc => ?_⟩
      simp only [getModuleInfoAux, hall acc]
    · have hres0 : ∀ p ∈ ps0, scanRepoEntry repo p = none → isOutPath p = true := by
        intro p hp hn
        by_cases hout : isOutPath p = true
        · exact hout
        · exact absurd ⟨p, hp, hn, Bool.eq_false_iff.mpr hout⟩ h0
      have hrest : ∃ tp ∈ rest, ∃ p ∈ tp.2,
          scanRepoEntry repo p = none ∧ isOutPath p = false := by
        rcases List.mem_cons.mp htp1 with rfl | h
        · exact absurd ⟨p1, hp1, hn1, hno1⟩ h0
        · exact ⟨tp1, h, p1, hp1, hn1, hno1⟩
      rcases ih hrest with ⟨t, p, ⟨ps, hps, hp, hn, hno⟩, hall⟩
      refine ⟨t, p, ⟨ps, List.mem_cons_of_mem _ hps, hp, hn, hno⟩, fun acc => ?_⟩
      rcases addTargetPaths_ok repo t0 ps0 hres0 acc with ⟨acc1, heq1, _, _⟩
      simp only [getModuleInfoAux, heq1]
      exact hall acc1

/-! ### Claim theorems -/

/-- C1 counterexample: on the unit test's index, the scanner applied to
`system/project1/path/to/file.h` returns the longest-matching repo path
`system/project1` itself — not the project identifier `platform/project1`
owning that repo path, which the claim predicts
(`manifest_split_test.py, test_scan_repo_projects` asserts the repo path). -/
theorem scan_repo_projects_counterexample :
    scan_repo_projects
      [("system/project1", "platform/project1"),
       ("system/project2", "platform/project2")]
      "system/project1/path/to/file.h" = some "system/project1" ∧
    ¬ scan_repo_projects
        [("system/project1", "platform/project1"),
         ("system/project2", "platform/project2")]
        "system/project1/path/to/file.h" = some "platform/project1" :=
  ⟨by decide, by decide⟩

/-- C1 (amended): for every repo-path index and file path `p`, if some
repo-path key is a segment-wise prefix of `p` then `scan_repo_projects`
returns the repo-path key (not the project identifier it maps to) that is the
longest matching segment-wise prefix of `p`; if no key matches it returns
none. -/
theorem scan_repo_projects_spec (repo : RepoProjects) (p : String) :
    ((∃ kv ∈ repo, startsSegWise kv.1 p = true) →
      ∃ k, scan_repo_projects repo p = some k ∧
        (∃ v, (k, v) ∈ repo) ∧ startsSegWise k p = true ∧
        ∀ kv ∈ repo, startsSegWise kv.1 p = true →
          (pathSegments kv.1).length ≤ (pathSegments k).length) ∧
    ((∀ kv ∈ repo, startsSegWise kv.1 p = false) →
      scan_repo_projects repo p = none) := by
  constructor
  · rintro ⟨kv, hkv, hm⟩
    rcases (scanFold_spec p repo none).2.1 kv hkv hm with ⟨r, hr, _⟩
    rcases (scanFold_spec p repo none).1 with h | ⟨kv2, hkv2, h2, hm2⟩
    · rw [h] at hr; cases hr
    · have hrkv2 : r = kv2 := by rw [hr] at h2; exact Option.some.inj h2
      refine ⟨r.1, ?_, ⟨r.2, ?_⟩, ?_, ?_⟩
      · unfold scan_repo_projects scanRepoEntry
        rw [hr]
        rfl
      · rw [Prod.mk.eta, hrkv2]; exact hkv2
      · rw [hrkv2]; exact hm2
      · intro kv3 hkv3 hm3
        rcases (scanFold_spec p repo none).2.1 kv3 hkv3 hm3 with ⟨r2, hr2, hle2⟩
        rw [hr] at hr2
        rw [← Option.some.inj hr2] at hle2
        exact hle2
  · intro hall
    have h := (scanFold_spec p repo none).2.2.1
      (fun kv hkv => hall kv hkv)
    unfold scan_repo_projects scanRepoEntry
    rw [h]
    rfl

/-- C1 witness: the amended scanner theorem applied to the unit test's index
and path, with the matching-prefix hypothesis discharged by evaluation. -/
theorem scan_repo_projects_spec_witness :
    (∃ kv ∈ ([("system/project1", "platform/project1"),
        ("system/project2", "platform/project2")] : RepoProjects),
      startsSegWise kv.1 "system/project1/path/to/file.h" = true) ∧
    (∃ k, scan_repo_projects
        [("system/project1", "platform/project1"),
         ("system/project2", "platform/project2")]
        "system/project1/path/to/file.h" = some k ∧
      (∃ v, (k, v) ∈ ([("system/project1", "platform/project1"),
          ("system/project2", "platform/project2")] : RepoProjects)) ∧
      startsSegWise k "system/project1/path/to/file.h" = true ∧
      ∀ kv ∈ ([("system/project1", "platform/project1"),
          ("system/project2", "platform/project2")] : RepoProjects),
        startsSegWise kv.1 "system/project1/path/to/file.h" = true →
          (pathSegments kv.1).length ≤ (pathSegments k).length) :=
  ⟨by decide, (scan_repo_projects_spec _ _).1 (by decide)⟩

/-- C4: for every repo-path index and list of input file paths,
`get_input_projects` returns exactly the set of project identifiers owning
some input path via scanner resolution; paths resolving to no project
contribute nothing (silently dropped) instead of raising. -/
theorem get_input_projects_spec (repo : RepoProjects) (inputs : List String)
    (proj : String) :
    proj ∈ get_input_projects repo inputs ↔
      ∃ p ∈ inputs, ∃ k, scanRepoEntry repo p = some (k, proj) :=
  mem_get_input_projects repo inputs proj

/-- C7: `get_input_projects` is order-independent — a permutation of the
input path list yields the same set — and repeating the call on the same
list yields the same set as a single call. -/
theorem get_input_projects_order_independent (repo : RepoProjects)
    (l1 l2 : List String) (h : l1.Perm l2) :
    get_input_projects repo l1 = get_input_projects repo l2 ∧
      get_input_projects repo l1 = get_input_projects repo l1 := by
  refine ⟨?_, rfl⟩
  unfold get_input_projects
  exact Finset.ext fun x => by
    simp only [List.mem_toFinset]
    exact (h.filterMap _).mem_iff

/-- C7 witness: the order-independence theorem applied to a concrete
permuted pair of input lists over a concrete index. -/
theorem get_input_projects_order_independent_witness :
    (["system/project1/a.h", "/tmp/x.java", "system/project2/b.cc"].Perm
      ["system/project2/b.cc", "system/project1/a.h", "/tmp/x.java"]) ∧
    (get_input_projects [("system/project1", "platform/project1"),
        ("system/project2", "platform/project2")]
        ["system/project1/a.h", "/tmp/x.java", "system/project2/b.cc"] =
      get_input_projects [("system/project1", "platform/project1"),
        ("system/project2", "platform/project2")]
        ["system/project2/b.cc", "system/project1/a.h", "/tmp/x.java"] ∧
      get_input_projects [("system/project1", "platform/project1"),
        ("system/project2", "platform/project2")]
        ["system/project1/a.h", "/tmp/x.java", "system/project2/b.cc"] =
      get_input_projects [("system/project1", "platform/project1"),
        ("system/project2", "platform/project2")]
        ["system/project1/a.h", "/tmp/x.java", "system/project2/b.cc"]) :=
  ⟨by decide, get_input_projects_order_independent _ _ _ (by decide)⟩

/-- C8: `update_manifest` is idempotent — filtering an already-filtered
manifest with the same resolved and remove sets leaves it unchanged. -/
theorem update_manifest_idempotent (m : XmlDoc) (inp rem : Finset String) :
    update_manifest (update_manifest m inp rem) inp rem =
      update_manifest m inp rem := by
  unfold update_manifest
  exact congrArg (XmlDoc.mk m.rootTag m.rootAttrs)
    (filter_idem_list (keepChild inp rem) m.children)

/-- C3: the project elements of the updated manifest are exactly the project
elements of the input manifest whose `name` attribute lies in the resolved
set minus the remove set, in original document order; in the concrete
scenario of the unit test (projects platform/project1..3, resolved set
`{platform/project1, platform/project3}`, remove set `{platform/project3}`)
exactly `platform/project1` survives. -/
theorem update_manifest_spec (m : XmlDoc) (inp rem : Finset String) :
    (projectsOf (update_manifest m inp rem) =
      (projectsOf m).filter (nameInSet (inp \ rem))) ∧
    projectsOf (update_manifest
      { rootTag := "manifest", rootAttrs := [],
        children :=
          [{ tag := "project",
             attrs := [("name", "platform/project1"), ("path", "system/project1")] },
           { tag := "project",
             attrs := [("name", "platform/project2"), ("path", "system/project2")] },
           { tag := "project",
             attrs := [("name", "platform/project3"), ("path", "system/project3")] }] }
      {"platform/project1", "platform/project3"} {"platform/project3"}) =
      [{ tag := "project",
         attrs := [("name", "platform/project1"), ("path", "system/project1")] }] := by
  constructor
  · unfold projectsOf update_manifest
    simp only [List.filter_filter]
    refine List.filter_congr (fun c _ => ?_)
    unfold keepChild
    cases h : (c.tag == "project") <;> simp [h]
  · decide

/-- C9: `read_config` on a well-formed (parsed) config document returns the
pair of sets of `name` attributes of the `remove_project` children and of the
`add_project` children; the same document stripped of all children yields two
empty sets; a malformed document fails with the parse error. -/
theorem read_config_spec (doc : XmlDoc) (e : String) :
    (∃ remove add, read_config (Except.ok doc) = Except.ok (remove, add) ∧
      (∀ n, n ∈ remove ↔
        ∃ c ∈ doc.children, c.tag = "remove_project" ∧ attrOf c "name" = some n) ∧
      (∀ n, n ∈ add ↔
        ∃ c ∈ doc.children, c.tag = "add_project" ∧ attrOf c "name" = some n)) ∧
    read_config (Except.ok
      { rootTag := doc.rootTag, rootAttrs := doc.rootAttrs, children := [] }) =
      Except.ok (∅, ∅) ∧
    read_config (Except.error e) = Except.error e := by
  refine ⟨⟨_, _, rfl, ?_, ?_⟩, rfl, rfl⟩
  · intro n
    simp only [List.mem_toFinset, List.mem_filterMap, List.mem_filter]
    constructor
    · rintro ⟨c, ⟨hc, ht⟩, hn⟩
      exact ⟨c, hc, by simpa using ht, hn⟩
    · rintro ⟨c, hc, ht, hn⟩
      exact ⟨c, ⟨hc, by simpa using ht⟩, hn⟩
  · intro n
    simp only [List.mem_toFinset, List.mem_filterMap, List.mem_filter]
    constructor
    · rintro ⟨c, ⟨hc, ht⟩, hn⟩
      exact ⟨c, hc, by simpa using ht, hn⟩
    · rintro ⟨c, hc, ht, hn⟩
      exact ⟨c, ⟨hc, by simpa using ht⟩, hn⟩

set_option maxRecDepth 10000 in
/-- C5: the hash element built by `create_manifest_sha1_element` carries the
caller-supplied identifier as its `name` attribute, the fixed value `sha1` as
its `type` attribute, and as its `value` attribute the hex SHA-1 digest of
the serialized bytes of the manifest root as it stands before the hash
element is inserted (the input document, which never contains the hash
element); on the unit test's empty manifest the digest is the true SHA-1 of
the twelve bytes `<manifest />`. -/
theorem create_manifest_sha1_element_spec (m : XmlDoc) (id : String) :
    (create_manifest_sha1_element m id).tag = "hash" ∧
    attrOf (create_manifest_sha1_element m id) "name" = some id ∧
    attrOf (create_manifest_sha1_element m id) "type" = some "sha1" ∧
    attrOf (create_manifest_sha1_element m id) "value" =
      some (Sha1.hexdigest (strBytes (serializeDoc m))) ∧
    serializeDoc { rootTag := "manifest", rootAttrs := [], children := [] } =
      "<manifest />" ∧
    Sha1.hexdigest (strBytes (serializeDoc
      { rootTag := "manifest", rootAttrs := [], children := [] })) =
      "3ec996ac6c40c829249dd353cbe0c4af0117a710" := by
  refine ⟨rfl, ?_, ?_, ?_, by decide, by decide⟩
  · simp [create_manifest_sha1_element, attrOf]
  · simp [create_manifest_sha1_element, attrOf]
  · simp [create_manifest_sha1_element, attrOf]

/-- C6: for a module-info table all of whose paths resolve against the
repo-path index, `get_module_info` returns a mapping in which a target is
recorded under a project exactly when some of its paths is owned by that
project (so a target appears only under the projects owning its paths, and
never elsewhere), and every target set is duplicate-free. -/
theorem get_module_info_ok_spec (mi : ModuleInfo) (repo : RepoProjects)
    (hres : ∀ tp ∈ mi, ∀ p ∈ tp.2, (scanRepoEntry repo p).isSome = true) :
    ∃ m, get_module_info mi repo = Except.ok m ∧
      (∀ q tg, tg ∈ targetsOf m q ↔
        ∃ ps, (tg, ps) ∈ mi ∧ ∃ p ∈ ps, ∃ k, scanRepoEntry repo p = some (k, q)) ∧
      ∀ pr ∈ m, pr.2.Nodup := by
  have hres2 : ∀ tp ∈ mi, ∀ p ∈ tp.2,
      scanRepoEntry repo p = none → isOutPath p = true := by
    intro tp htp p hp hn
    have hs := hres tp htp p hp
    rw [hn] at hs
    cases hs
  rcases getModuleInfoAux_ok repo mi hres2 [] with ⟨m, heq, hmem, hnd⟩
  refine ⟨m, heq, ?_, hnd (fun pr hpr => absurd hpr (List.not_mem_nil _))⟩
  intro q tg
  rw [hmem q tg]
  simp [targetsOf_nil]

/-- C6 witness: the success theorem applied to the unit test's resolvable
module-info table and index, hypotheses discharged by evaluation. -/
theorem get_module_info_ok_spec_witness :
    (∀ tp ∈ ([("target1a", ["system/project1"]), ("target1b", ["system/project1"]),
        ("target3", ["vendor/google/project3"])] : ModuleInfo),
      ∀ p ∈ tp.2, (scanRepoEntry [("system/project1", "platform/project1"),
        ("vendor/google/project3", "vendor/project3")] p).isSome = true) ∧
    (∃ m, get_module_info
        [("target1a", ["system/project1"]), ("target1b", ["system/project1"]),
         ("target3", ["vendor/google/project3"])]
        [("system/project1", "platform/project1"),
         ("vendor/google/project3", "vendor/project3")] = Except.ok m ∧
      (∀ q tg, tg ∈ targetsOf m q ↔
        ∃ ps, (tg, ps) ∈ ([("target1a", ["system/project1"]),
            ("target1b", ["system/project1"]),
            ("target3", ["vendor/google/project3"])] : ModuleInfo) ∧
          ∃ p ∈ ps, ∃ k, scanRepoEntry [("system/project1", "platform/project1"),
            ("vendor/google/project3", "vendor/project3")] p = some (k, q)) ∧
      ∀ pr ∈ m, pr.2.Nodup) :=
  ⟨by decide, get_module_info_ok_spec _ _ (by decide)⟩

/-- C2 counterexample: in the unit test `test_get_module_info`, target2's
path `out/project2` resolves to no entry of the repo-path index, yet
`get_module_info` does not fail — it returns a result mapping (with target2
silently absent), because unresolvable paths under the build-output
directory `out/` are skipped rather than fatal. -/
theorem get_module_info_counterexample :
    (∃ tp ∈ ([("target1a", ["system/project1"]), ("target1b", ["system/project1"]),
        ("target2", ["out/project2"]), ("target3", ["vendor/google/project3"])] :
          ModuleInfo),
      ∃ p ∈ tp.2, scanRepoEntry [("system/project1", "platform/project1"),
        ("vendor/google/project3", "vendor/project3")] p = none) ∧
    get_module_info
      [("target1a", ["system/project1"]), ("target1b", ["system/project1"]),
       ("target2", ["out/project2"]), ("target3", ["vendor/google/project3"])]
      [("system/project1", "platform/project1"),
       ("vendor/google/project3", "vendor/project3")] =
      Except.ok [("platform/project1", ["target1a", "target1b"]),
                 ("vendor/project3", ["target3"])] :=
  ⟨by decide, by rfl⟩

/-- C2 (amended): if some path listed for some target neither lies under
the build-output directory `out/` nor resolves to an entry of the repo-path
index, then `get_module_info` fails with a configuration error naming an
offending target and path, and no result mapping is produced; unresolvable
paths under `out/` are exempt from this validation. -/
theorem get_module_info_err_spec (mi : ModuleInfo) (repo : RepoProjects)
    (h : ∃ tp ∈ mi, ∃ p ∈ tp.2,
      scanRepoEntry repo p = none ∧ isOutPath p = false) :
    ∃ t p, (∃ ps, (t, ps) ∈ mi ∧ p ∈ ps ∧ scanRepoEntry repo p = none ∧
        isOutPath p = false) ∧
      get_module_info mi repo = Except.error (unknownPathMsg t p) := by
  rcases getModuleInfoAux_err repo mi h with ⟨t, p, hw, hall⟩
  exact ⟨t, p, hw, hall []⟩

/-- C2 witness: the amended error theorem applied to the unit test
`test_get_module_info_raises_on_unknown_module_path` (one target whose only
path resolves nowhere under an empty index). -/
theorem get_module_info_err_spec_witness :
    (∃ tp ∈ ([("target1", ["system/unknown/project1"])] : ModuleInfo),
      ∃ p ∈ tp.2, scanRepoEntry ([] : RepoProjects) p = none ∧
        isOutPath p = false) ∧
    (∃ t p, (∃ ps, (t, ps) ∈ ([("target1", ["system/unknown/project1"])] :
          ModuleInfo) ∧ p ∈ ps ∧ scanRepoEntry ([] : RepoProjects) p = none ∧
        isOutPath p = false) ∧
      get_module_info [("target1", ["system/unknown/project1"])] [] =
        Except.error (unknownPathMsg t p)) :=
  ⟨by decide, get_module_info_err_spec _ _ (by decide)⟩

end ManifestSplit

namespace Nsjail

/-- C10: when `run` is called with a non-empty `meta_root_dir` and a
`meta_android_dir` that is empty or absolute, it raises `ValueError` before
any nsjail command is constructed or executed (the result is the error alone,
carrying no command).  The hypotheses pin the environment: `os.path.abspath`
of the non-empty `meta_root_dir` is non-empty (true of the real `abspath`),
and the interactive adb-server check of `mount_local_device` does not
terminate the process first. -/
theorem run_validates_meta_android_dir (sys : SysEnv) (a : RunArgs)
    (hmeta : a.meta_root_dir ≠ "")
    (habs : sys.abspath a.meta_root_dir ≠ "")
    (hbad : a.meta_android_dir = "" ∨ os_path_isabs a.meta_android_dir = true)
    (hadb : a.mount_local_device = false ∨ sys.adbServerRunning = false ∨
      sys.userAgreesAdbKill = true) :
    run sys a = Except.error (RunError.valueError
      ("error: the provided meta_android_dir is not a path"
        ++ "relative to meta_root_dir.")) := by
  have h1 : (a.mount_local_device && sys.adbServerRunning && !sys.userAgreesAdbKill)
      = false := by
    rcases hadb with h | h | h <;> simp [h]
  have h2 : (a.meta_root_dir == "") = false := by
    simpa using hmeta
  have h3 : (sys.abspath a.meta_root_dir != "") = true := by
    simpa using habs
  have h4 : (a.meta_android_dir == "" || os_path_isabs a.meta_android_dir) = true := by
    rcases hbad with h | h <;> simp [h]
  unfold run
  rw [h1]
  simp only [Bool.false_eq_true, if_false, h2, h3, h4, Bool.and_true, if_true]

/-- C10 witness: the validation theorem applied to a concrete call — a
non-empty `meta_root_dir`, an empty `meta_android_dir`, `mount_local_device`
off, and a concrete absolute-path resolver. -/
theorem run_validates_meta_android_dir_witness :
    (("meta" : String) ≠ "") ∧ (("/abs/" ++ "meta" : String) ≠ "") ∧
    run
      { scriptDir := "/script", abspath := fun s => "/abs/" ++ s,
        pathExists := fun _ => false, overlayBindMounts := [],
        adbServerRunning := false, userAgreesAdbKill := false }
      { command := ["make"], android_target := "aosp", nsjail_bin := "nsjail",
        chroot := "", overlay_config := "", source_dir := "src",
        out_dirname_for_whiteout := "", dist_dir := "", build_id := "",
        out_dir := "", meta_root_dir := "meta", meta_android_dir := "",
        mount_local_device := false, max_cpus := none, extra_bind_mounts := [],
        readonly_bind_mounts := [], extra_nsjail_args := [], dry_run := false,
        quiet := false, env := [] } =
      Except.error (RunError.valueError
        ("error: the provided meta_android_dir is not a path"
          ++ "relative to meta_root_dir.")) :=
  ⟨by decide, by decide,
    run_validates_meta_android_dir _ _ (by decide) (by decide) (Or.inl rfl)
      (Or.inl rfl)⟩

end Nsjail
